import Mathlib

/-!
Verification of the car catalog component (`content_cars.go`) of
assetto-server-manager: a filesystem-backed content catalog kept in sync
with a full-text search index.

The filesystem under `content/cars` is modelled as a list of directory
entries; each car directory carries an optional `skins` subdirectory
listing and an optional `ui/ui_car.json` metadata file. The search index
is modelled as an association list from car name to the indexed Details
document. I/O failures other than structural absence (`os.IsNotExist`)
are treated as environmental and not modelled; absence and malformed
JSON are modelled explicitly because the code branches on them.
-/

/-- Error class distinguished by the Go code via `os.IsNotExist`. -/
inductive GoError where
  | notExist
  | other
deriving DecidableEq, Repr

abbrev GoResult (α : Type) := Except GoError α

/-- String specs block of a car's Details document (`CarSpecs`). -/
structure CarSpecs where
  Acceleration : String
  BHP : String
  PWRatio : String
  TopSpeed : String
  Torque : String
  Weight : String
deriving DecidableEq, Repr

/-- Numeric specs block (`CarSpecsNumeric`); Go `int` modelled as `Int`. -/
structure CarSpecsNumeric where
  Acceleration : Int
  BHP : Int
  PWRatio : Int
  TopSpeed : Int
  Torque : Int
  Weight : Int
deriving DecidableEq, Repr

/-- The Details document (`CarDetails`). `json.Number` entries of the
power/torque curves are modelled as strings. -/
structure CarDetails where
  Author : String
  Brand : String
  Class : String
  Country : String
  Description : String
  Name : String
  PowerCurve : List (List String)
  SpecsFull : CarSpecs
  Specs : CarSpecsNumeric
  Tags : List String
  TorqueCurve : List (List String)
  URL : String
  Version : String
  Year : Int
  DownloadURL : String
  Notes : String
deriving DecidableEq, Repr

/-- The Go zero value `CarDetails{}`. -/
def CarDetails.empty : CarDetails where
  Author := ""
  Brand := ""
  Class := ""
  Country := ""
  Description := ""
  Name := ""
  PowerCurve := []
  SpecsFull := ⟨"", "", "", "", "", ""⟩
  Specs := ⟨0, 0, 0, 0, 0, 0⟩
  Tags := []
  TorqueCurve := []
  URL := ""
  Version := ""
  Year := 0
  DownloadURL := ""
  Notes := ""

/-- Tyre registry data: item name to variant-to-compound mapping. The
registry itself lives outside this file (spec §6 collaborator). -/
abbrev Tyres := List (String × List (String × String))

/-- A catalog item (`Car`). -/
structure Car where
  Name : String
  Skins : List String
  Tyres : List (String × String)
  Details : CarDetails
deriving DecidableEq, Repr

/-- Split a character list on underscores. -/
def splitOnUnderscore : List Char → List (List Char)
  | [] => [[]]
  | c :: cs =>
    if c = '_' then [] :: splitOnUnderscore cs
    else
      match splitOnUnderscore cs with
      | [] => [[c]]
      | w :: ws => (c :: w) :: ws

/-- Upper-case the first character of a word. -/
def capitalizeWord : List Char → List Char
  | [] => []
  | c :: cs => c.toUpper :: cs

/-- Join words with single spaces. -/
def joinSpace : List (List Char) → List Char
  | [] => []
  | [w] => w
  | w :: ws => w ++ ' ' :: joinSpace ws

/-- Modelled from the spec: `prettifyName` (defined elsewhere in the
repository) is the deterministic `prettify(identity) -> displayName`
transform that collapses separators/casing; modelled as replacing
underscores by spaces and capitalizing each word. The second argument
(acronym handling in the source) does not affect the model. -/
def prettifyName (name : String) (_acronyms : Bool) : String :=
  String.mk (joinSpace ((splitOnUnderscore name.data).map capitalizeWord))

/-- Go byte-wise lexicographic strict order on strings, over the
character lists (UTF-8 byte order and code-point order agree). -/
def charListLt : List Char → List Char → Bool
  | [], [] => false
  | [], _ :: _ => true
  | _ :: _, [] => false
  | a :: as, b :: bs =>
    if a.toNat < b.toNat then true
    else if a.toNat = b.toNat then charListLt as bs
    else false

/-- Go `a < b` on strings. -/
def strLt (a b : String) : Bool :=
  charListLt a.data b.data

/-- The non-strict order induced by `strLt`: what a comparison sort with
`less = strLt` guarantees between ordered elements. -/
def strLe (a b : String) : Bool :=
  !(strLt b a)

/-- `Car.PrettyName`. -/
def Car.PrettyName (c : Car) : String :=
  prettifyName c.Name true

/-- `CarDetails.AddTag`: append the tag unless already present. -/
def CarDetails.AddTag (cd : CarDetails) (name : String) : CarDetails :=
  if name ∈ cd.Tags then cd else { cd with Tags := cd.Tags ++ [name] }

/-- The `deleteIndex` computed by the loop in `CarDetails.DelTag`: the
index of the last occurrence of the tag, if any. -/
def delTagIndex (tags : List String) (name : String) : Option Nat :=
  tags.enum.foldl (fun acc p => if p.2 = name then some p.1 else acc) none

/-- `CarDetails.DelTag`: remove the last occurrence of the tag; no-op if
the tag is absent. -/
def CarDetails.DelTag (cd : CarDetails) (name : String) : CarDetails :=
  match delTagIndex cd.Tags name with
  | none => cd
  | some i => { cd with Tags := cd.Tags.take i ++ cd.Tags.drop (i + 1) }

/-- Base-10 value of a digit string, as `strconv.Atoi` computes it. -/
def natOfDigits (cs : List Char) : Nat :=
  cs.foldl (fun n c => n * 10 + (c.toNat - 48)) 0

/-- Modelled from the spec: `formValueAsInt` (defined elsewhere in the
repository) converts a form value to an int: a digit string parses to
its base-10 value and anything non-numeric (including the empty string)
yields 0. Machine overflow is not modelled. -/
def formValueAsInt (s : String) : Int :=
  if s.data ≠ [] ∧ s.data.all Char.isDigit then (natOfDigits s.data : Int) else 0

/-- Leftmost maximal digit run of a character list; `[]` if none. This is
what `keepNumericRegex.FindString` (regexp `[0-9]+`) returns. -/
def findDigitRun : List Char → List Char
  | [] => []
  | c :: cs => if c.isDigit then c :: cs.takeWhile Char.isDigit else findDigitRun cs

/-- `toNumber`: extract the digit run and convert it with `formValueAsInt`. -/
def toNumber (str : String) : Int :=
  formValueAsInt (String.mk (findDigitRun str.data))

/-- `CarSpecs.Numeric`: per-field numeric normalization. -/
def CarSpecs.Numeric (cs : CarSpecs) : CarSpecsNumeric where
  Acceleration := toNumber cs.Acceleration
  BHP := toNumber cs.BHP
  PWRatio := toNumber cs.PWRatio
  TopSpeed := toNumber cs.TopSpeed
  Torque := toNumber cs.Torque
  Weight := toNumber cs.Weight

/-- Content of `ui/ui_car.json` when present: either structurally
malformed (JSON decode error, a non-`notExist` error) or a decoded
Details document. BOM/whitespace stripping is absorbed into `ok`. -/
inductive UiCarFile where
  | malformed
  | ok (d : CarDetails)
deriving DecidableEq, Repr

/-- On-disk state of one car directory `content/cars/<name>/`. `skins =
none` models an absent `skins` subdirectory; `uiCar = none` models an
absent metadata file. -/
structure CarDir where
  skins : Option (List (String × Bool))
  uiCar : Option UiCarFile
deriving DecidableEq, Repr

/-- A directory entry under `content/cars`: a plain file or a car
directory. `ioutil.ReadDir` yields both; `ListCars` filters with
`IsDir`. -/
inductive CarsEntry where
  | file (name : String)
  | dir (name : String) (d : CarDir)
deriving DecidableEq, Repr

/-- Name of a `content/cars` directory entry. -/
def CarsEntry.name : CarsEntry → String
  | .file n => n
  | .dir n _ => n

/-- The filesystem state visible to this component, together with the
tyre registry (an external read-only collaborator, spec §6; `ListTyres`
is modelled as reading it). -/
structure FS where
  cars : List CarsEntry
  tyres : Tyres
deriving DecidableEq, Repr

/-- Resolve `content/cars/<n>` to a car directory: the first directory
entry with that name (plain files are not directories, so path lookups
through them fail). -/
def findCarDirIn : List CarsEntry → String → Option CarDir
  | [], _ => none
  | .file _ :: rest, n => findCarDirIn rest n
  | .dir m d :: rest, n => if m = n then some d else findCarDirIn rest n

/-- Resolve a car name to its directory in the filesystem. -/
def FS.findCarDir (fs : FS) (n : String) : Option CarDir :=
  findCarDirIn fs.cars n

/-- Read `content/cars/<name>/skins`: `notExist` if the car directory or
the skins subdirectory is absent (both surface as `os.IsNotExist`). -/
def readSkinsDir (fs : FS) (name : String) : GoResult (List (String × Bool)) :=
  match fs.findCarDir name with
  | none => .error .notExist
  | some d =>
    match d.skins with
    | none => .error .notExist
    | some entries => .ok entries

/-- `CarDetails.Load`: read and decode `ui/ui_car.json`, then recompute
the numeric specs from the string specs (line 130 of the source). -/
def CarDetails.Load (fs : FS) (carName : String) : GoResult CarDetails :=
  match fs.findCarDir carName with
  | none => .error .notExist
  | some d =>
    match d.uiCar with
    | none => .error .notExist
    | some .malformed => .error .other
    | some (.ok cd) => .ok { cd with Specs := cd.SpecsFull.Numeric }

/-- Replace the first car directory named `n` using `f`; other entries
are unchanged. -/
def updateCarDir : List CarsEntry → String → (CarDir → CarDir) → List CarsEntry
  | [], _, _ => []
  | .dir m d :: rest, n, f =>
    if m = n then .dir m (f d) :: rest else .dir m d :: updateCarDir rest n f
  | e :: rest, n, f => e :: updateCarDir rest n f

/-- `CarDetails.Save`: write the serialized Details document (numeric
specs included) to `content/cars/<n>/ui/ui_car.json`, creating the
directory structure when missing (`os.MkdirAll`). A freshly created car
directory has no skins subdirectory. -/
def FS.saveDetails (fs : FS) (n : String) (d : CarDetails) : FS :=
  if (fs.findCarDir n).isSome then
    { fs with cars := updateCarDir fs.cars n (fun cd => { cd with uiCar := some (.ok d) }) }
  else
    { fs with cars := fs.cars ++ [.dir n { skins := none, uiCar := some (.ok d) }] }

/-- Lookup of the decoded Details currently stored on disk for a car, if
its metadata file exists and decodes. -/
def FS.uiCarOkDetails (fs : FS) (n : String) : Option CarDetails :=
  match (fs.findCarDir n).bind CarDir.uiCar with
  | some (.ok d) => some d
  | some .malformed => none
  | none => none

/-- Go map lookup `tyres[name]` (nil map / missing key yields the empty
map). -/
def tyresLookup (t : Tyres) (name : String) : List (String × String) :=
  (((t.find? (fun p => p.1 = name)).map Prod.snd).getD [])

/-- `CarManager.LoadCar`: enumerate skins (directories only), then load
the Details document; an absent document is synthesized with just the
prettified name (lines 237-244 of the source). -/
def CarManager.LoadCar (fs : FS) (name : String) (tyres : Tyres) : GoResult Car :=
  match readSkinsDir fs name with
  | .error e => .error e
  | .ok skinFiles =>
    let skins := (skinFiles.filter (fun p => p.2)).map Prod.fst
    match CarDetails.Load fs name with
    | .error .notExist =>
      .ok { Name := name, Skins := skins, Tyres := tyresLookup tyres name,
            Details := { CarDetails.empty with Name := prettifyName name true } }
    | .error .other => .error .other
    | .ok cd =>
      .ok { Name := name, Skins := skins, Tyres := tyresLookup tyres name, Details := cd }

/-- The enumeration loop of `CarManager.ListCars` (lines 195-209): skip
non-directories, skip cars whose load fails with `notExist`, abort on
any other error. -/
def listCarsLoop (fs : FS) : List CarsEntry → GoResult (List Car)
  | [] => .ok []
  | .file _ :: rest => listCarsLoop fs rest
  | .dir n _ :: rest =>
    match CarManager.LoadCar fs n fs.tyres with
    | .error .notExist => listCarsLoop fs rest
    | .error .other => .error .other
    | .ok car => (listCarsLoop fs rest).map (fun cars => car :: cars)

/-- Ordering used by the `sort.Slice` call in `ListCars`: ascending by
prettified display name under Go string comparison. -/
def carOrder (a b : Car) : Prop :=
  strLe a.PrettyName b.PrettyName = true

instance : DecidableRel carOrder := fun a b => by
  unfold carOrder; infer_instance

/-- `CarManager.ListCars`: enumerate, load, and sort ascending by pretty
name. `sort.Slice` is an unstable comparison sort with strict less
`PrettyName i < PrettyName j`; it is modelled by a sort under the
corresponding non-strict order. -/
def CarManager.ListCars (fs : FS) : GoResult (List Car) :=
  (listCarsLoop fs fs.cars).map (fun cars => List.insertionSort carOrder cars)

/-- The search index: association list from car name to the indexed
Details document (`bleve.Index` keyed by `car.Name`). -/
abbrev CarIndex := List (String × CarDetails)

/-- Index `put`: overwrite any prior document under the same identity. -/
def indexPut (idx : CarIndex) (name : String) (d : CarDetails) : CarIndex :=
  (name, d) :: idx.filter (fun p => p.1 ≠ name)

/-- Index `remove` (`bleve.Index.Delete`): absence is not an error. -/
def indexDelete (idx : CarIndex) (name : String) : CarIndex :=
  idx.filter (fun p => p.1 ≠ name)

/-- Document currently stored in the index under a name. -/
def indexLookup (idx : CarIndex) (name : String) : Option CarDetails :=
  (idx.find? (fun p => p.1 = name)).map Prod.snd

/-- State held by a `CarManager`: the filesystem and its `carIndex`. -/
structure CarManagerState where
  fs : FS
  carIndex : CarIndex
deriving DecidableEq, Repr

/-- `CarManager.IndexCar`: index one car under `car.Name`. -/
def CarManager.IndexCar (st : CarManagerState) (car : Car) : CarManagerState :=
  { st with carIndex := indexPut st.carIndex car.Name car.Details }

/-- `CarManager.DeIndexCar`: remove a name from the index. -/
def CarManager.DeIndexCar (st : CarManagerState) (name : String) : CarManagerState :=
  { st with carIndex := indexDelete st.carIndex name }

/-- `CarManager.SaveCarDetails`: persist the Details, then index the car
(lines 436-442 of the source). -/
def CarManager.SaveCarDetails (st : CarManagerState) (carName : String) (car : Car) :
    CarManagerState :=
  CarManager.IndexCar { st with fs := st.fs.saveDetails carName car.Details } car

/-- `CarManager.AddTag`: load, add the tag, save-and-index. -/
def CarManager.AddTag (st : CarManagerState) (carName tag : String) :
    GoResult CarManagerState :=
  match CarManager.LoadCar st.fs carName [] with
  | .error e => .error e
  | .ok car =>
    .ok (CarManager.SaveCarDetails st carName { car with Details := car.Details.AddTag tag })

/-- `CarManager.DelTag`: load, delete the tag, save-and-index. -/
def CarManager.DelTag (st : CarManagerState) (carName tag : String) :
    GoResult CarManagerState :=
  match CarManager.LoadCar st.fs carName [] with
  | .error e => .error e
  | .ok car =>
    .ok (CarManager.SaveCarDetails st carName { car with Details := car.Details.DelTag tag })

/-- `CarManager.UpdateCarMetadata`: load, set the two operator fields
from the request form, and save via `car.Details.Save` directly (line
494 of the source) — not via `SaveCarDetails`. -/
def CarManager.UpdateCarMetadata (st : CarManagerState) (carName notes downloadURL : String) :
    GoResult CarManagerState :=
  match CarManager.LoadCar st.fs carName [] with
  | .error e => .error e
  | .ok car =>
    .ok { st with
          fs := st.fs.saveDetails carName
            { car.Details with Notes := notes, DownloadURL := downloadURL } }

/-- Remove `content/cars/<carName>` (`os.RemoveAll`). -/
def FS.removeCar (fs : FS) (carName : String) : FS :=
  { fs with cars := fs.cars.filter (fun e => e.name ≠ carName) }

/-- `CarManager.DeleteCar` (lines 283-307): list the catalog; remove the
car directory only if the name appears in the listing; in every
successful path finish with `DeIndexCar`. -/
def CarManager.DeleteCar (st : CarManagerState) (carName : String) :
    GoResult CarManagerState :=
  match CarManager.ListCars st.fs with
  | .error e => .error e
  | .ok existingCars =>
    let fs' := if existingCars.any (fun car => car.Name = carName)
               then st.fs.removeCar carName else st.fs
    .ok (CarManager.DeIndexCar { st with fs := fs' } carName)

/-- Hydration step of `CarManager.Search` (lines 398-406): resolve each
hit id into a full car via `LoadCar` with a nil tyre registry; any load
failure aborts the whole search with that error and no car map. The
bleve query evaluation itself is external to this component; `hits` is
the ordered hit-id list the index returned for the request. -/
def CarManager.Search (fs : FS) (hits : List String) : GoResult (List (String × Car)) :=
  match hits with
  | [] => .ok []
  | id :: rest =>
    match CarManager.LoadCar fs id [] with
    | .error e => .error e
    | .ok car => (CarManager.Search fs rest).map (fun cars => (id, car) :: cars)

/-- The fixed page size (line 309). -/
def searchPageSize : Nat := 50

/-- Offset passed to `Search` by `CarsHandler.list` (line 513):
`page*searchPageSize`. -/
def listSearchOffset (page : Nat) : Nat :=
  page * searchPageSize

/-- Page count computed by `CarsHandler.list` (line 521):
`math.Ceil(total/pageSize)` over the reals (float64 rounding is exact
here for every total below 2^53). -/
def numPages (total : Nat) : Nat :=
  (Int.ceil ((total : ℚ) / (searchPageSize : ℚ))).toNat

/-- Well-formedness used as a hypothesis for listing success: no car
directory holds a structurally malformed metadata file. -/
def CarsEntry.wellFormed : CarsEntry → Bool
  | .file _ => true
  | .dir _ d =>
    match d.uiCar with
    | some .malformed => false
    | _ => true

/-- No malformed metadata file anywhere under `content/cars`. -/
def NoMalformed (fs : FS) : Bool :=
  fs.cars.all CarsEntry.wellFormed

instance {α : Type} [DecidableEq α] : DecidableEq (GoResult α) := fun a b =>
  match a, b with
  | .ok x, .ok y =>
    if h : x = y then .isTrue (by rw [h]) else .isFalse (fun hc => h (Except.ok.inj hc))
  | .error x, .error y =>
    if h : x = y then .isTrue (by rw [h]) else .isFalse (fun hc => h (Except.error.inj hc))
  | .ok _, .error _ => .isFalse (fun hc => Except.noConfusion hc)
  | .error _, .ok _ => .isFalse (fun hc => Except.noConfusion hc)

/-- A car with no skins at all, used as an `Option.getD` fallback. -/
def emptyCar : Car where
  Name := ""
  Skins := []
  Tyres := []
  Details := CarDetails.empty

/-- Concrete string specs used by the witness states. -/
def specsA : CarSpecs where
  Acceleration := "12.5s"
  BHP := "450 bhp"
  PWRatio := "N/A"
  TopSpeed := "300 km/h"
  Torque := "441 Nm"
  Weight := "1100 kg"

/-- Concrete Details whose persisted numeric block is deliberately stale
(999 everywhere), to observe recomputation on load. -/
def detailsA : CarDetails :=
  { CarDetails.empty with
    Name := "Alpha One"
    Brand := "Alpha"
    SpecsFull := specsA
    Specs := ⟨999, 999, 999, 999, 999, 999⟩
    Tags := ["gt", "race"] }

/-- Details of the skinless fixture car. -/
def detailsC : CarDetails :=
  { CarDetails.empty with Name := "Gamma" }

/-- Fixture: a fully populated car directory. -/
def dirA : CarDir where
  skins := some [("red", true), ("skinreadme.txt", false)]
  uiCar := some (.ok detailsA)

/-- Fixture: a car directory with skins but no metadata file. -/
def dirB : CarDir where
  skins := some [("blue", true)]
  uiCar := none

/-- Fixture: a car directory with metadata but no skins subdirectory. -/
def dirC : CarDir where
  skins := none
  uiCar := some (.ok detailsC)

/-- Fixture filesystem with three car directories and a stray file. -/
def fs0 : FS where
  cars := [.dir "b_two" dirB, .file "stray.txt", .dir "a_one" dirA, .dir "c_three" dirC]
  tyres := []

/-- Fixture manager state: the index holds one live entry and one ghost
entry whose directory does not exist on disk. -/
def st0 : CarManagerState where
  fs := fs0
  carIndex := [("ghost_car", CarDetails.empty), ("a_one", detailsA)]

/-- Fixture manager state with an empty index. -/
def stC1 : CarManagerState where
  fs := fs0
  carIndex := []

/-- State after adding a fresh tag to the fixture car. -/
def stAdd : CarManagerState :=
  (CarManager.AddTag st0 "a_one" "newtag").toOption.getD st0

/-- State after deleting an existing tag from the fixture car. -/
def stDel : CarManagerState :=
  (CarManager.DelTag st0 "a_one" "gt").toOption.getD st0

/-- State after an operator-metadata update on the fixture car. -/
def stUpd : CarManagerState :=
  (CarManager.UpdateCarMetadata st0 "a_one" "fresh notes" "http:dl").toOption.getD st0

/-- The car produced by loading the fixture car `a_one` with no tyres. -/
def carA : Car :=
  (CarManager.LoadCar fs0 "a_one" []).toOption.getD emptyCar

/-- The listing of the fixture filesystem. -/
def cars0 : List Car :=
  (CarManager.ListCars fs0).toOption.getD []

/-- Strict lexicographic comparison is asymmetric. -/
theorem charListLt_asymm :
    ∀ x y : List Char, charListLt x y = true → charListLt y x = false := by
  intro x
  induction x with
  | nil =>
    intro y h
    cases y with
    | nil => simp [charListLt] at h
    | cons b bs => simp [charListLt]
  | cons a as ih =>
    intro y h
    cases y with
    | nil => simp [charListLt] at h
    | cons b bs =>
      show (if b.toNat < a.toNat then true
            else if b.toNat = a.toNat then charListLt bs as else false) = false
      by_cases hab : a.toNat < b.toNat
      · rw [if_neg (by omega), if_neg (by omega)]
      · by_cases heq : a.toNat = b.toNat
        · rw [if_neg (by omega), if_pos (by omega)]
          have h' : charListLt as bs = true := by
            simpa [charListLt, hab, heq] using h
          exact ih bs h'
        · simp [charListLt, hab, heq] at h

/-- Chained non-strictness: if `b` is not below `a` and `c` is not below
`b`, then `c` is not below `a`. -/
theorem charListLt_le_trans :
    ∀ as bs cs : List Char,
      charListLt bs as = false → charListLt cs bs = false → charListLt cs as = false := by
  intro as
  induction as with
  | nil =>
    intro bs cs h1 h2
    cases cs with
    | nil => rfl
    | cons c cs2 => rfl
  | cons a as2 ih =>
    intro bs cs h1 h2
    cases cs with
    | nil =>
      cases bs with
      | nil => simp [charListLt] at h1
      | cons b bs2 => simp [charListLt] at h2
    | cons c cs2 =>
      cases bs with
      | nil => simp [charListLt] at h1
      | cons b bs2 =>
        have hba : ¬ b.toNat < a.toNat ∧ (b.toNat = a.toNat → charListLt bs2 as2 = false) := by
          by_cases hlt : b.toNat < a.toNat
          · simp [charListLt, hlt] at h1
          · refine ⟨hlt, fun heq => ?_⟩
            simpa [charListLt, hlt, heq] using h1
        have hcb : ¬ c.toNat < b.toNat ∧ (c.toNat = b.toNat → charListLt cs2 bs2 = false) := by
          by_cases hlt : c.toNat < b.toNat
          · simp [charListLt, hlt] at h2
          · refine ⟨hlt, fun heq => ?_⟩
            simpa [charListLt, hlt, heq] using h2
        show (if c.toNat < a.toNat then true
              else if c.toNat = a.toNat then charListLt cs2 as2 else false) = false
        rw [if_neg (by omega)]
        by_cases hca : c.toNat = a.toNat
        · rw [if_pos hca]
          exact ih bs2 cs2 (hba.2 (by omega)) (hcb.2 (by omega))
        · rw [if_neg hca]

/-- `carOrder` is total. -/
theorem carOrder_total (a b : Car) : carOrder a b ∨ carOrder b a := by
  unfold carOrder strLe strLt
  by_cases h : charListLt b.PrettyName.data a.PrettyName.data = true
  · right
    simp [charListLt_asymm _ _ h]
  · left
    simp [Bool.not_eq_true] at h
    simp [h]

/-- `carOrder` is transitive. -/
theorem carOrder_trans (a b c : Car) (h1 : carOrder a b) (h2 : carOrder b c) :
    carOrder a c := by
  unfold carOrder strLe strLt at h1 h2 ⊢
  simp only [Bool.not_eq_true'] at h1 h2 ⊢
  exact charListLt_le_trans _ _ _ h1 h2

/-- Taking digits from a digit run followed by a non-digit boundary
yields exactly the run. -/
theorem takeWhile_digits_append (r b : List Char)
    (hr : r.all Char.isDigit = true)
    (hb : b.head?.all (fun c => !c.isDigit) = true) :
    (r ++ b).takeWhile Char.isDigit = r := by
  induction r with
  | nil =>
    cases b with
    | nil => rfl
    | cons c cs =>
      simp only [List.head?, Option.all_some, Bool.not_eq_true'] at hb
      simp [List.takeWhile, hb]
  | cons c cs ih =>
    simp only [List.all_cons, Bool.and_eq_true] at hr
    simp [List.takeWhile, hr.1, ih hr.2]

/-- A digit-free prefix does not affect the digit run found. -/
theorem findDigitRun_append_nodigit (a l : List Char)
    (ha : a.all (fun c => !c.isDigit) = true) :
    findDigitRun (a ++ l) = findDigitRun l := by
  induction a with
  | nil => rfl
  | cons c cs ih =>
    simp only [List.all_cons, Bool.and_eq_true, Bool.not_eq_true'] at ha
    simp [findDigitRun, ha.1, ih ha.2]

/-- No digits at all: the found run is empty. -/
theorem findDigitRun_nodigit (l : List Char)
    (h : l.all (fun c => !c.isDigit) = true) :
    findDigitRun l = [] := by
  simpa using findDigitRun_append_nodigit l [] h

/-- The regexp search finds exactly a maximal digit run delimited by
digit-free context. -/
theorem findDigitRun_run (a r b : List Char)
    (hr : r ≠ []) (hrd : r.all Char.isDigit = true)
    (ha : a.all (fun c => !c.isDigit) = true)
    (hb : b.head?.all (fun c => !c.isDigit) = true) :
    findDigitRun (a ++ r ++ b) = r := by
  rw [List.append_assoc, findDigitRun_append_nodigit a (r ++ b) ha]
  cases r with
  | nil => exact absurd rfl hr
  | cons c cs =>
    simp only [List.all_cons, Bool.and_eq_true] at hrd
    have ht := takeWhile_digits_append cs b hrd.2 hb
    simpa [findDigitRun, hrd.1] using congrArg (fun l => c :: l) ht

/-- `formValueAsInt` on a nonempty digit string is its base-10 value. -/
theorem formValueAsInt_digits (r : List Char) (hr : r ≠ [])
    (hrd : r.all Char.isDigit = true) :
    formValueAsInt (String.mk r) = (natOfDigits r : Int) := by
  unfold formValueAsInt
  rw [if_pos ⟨by simpa using hr, by simpa using hrd⟩]

/-- C4: for every input string containing a digit run (delimited by
digit-free context on the left and a non-digit boundary on the right),
`toNumber` returns that contiguous run parsed as a base-10 integer, and
for every input string with no digits it returns 0. -/
theorem C4_toNumber_normalization :
    (∀ (s : String) (a r b : List Char),
        s.data = a ++ r ++ b → r ≠ [] → r.all Char.isDigit = true →
        a.all (fun c => !c.isDigit) = true →
        b.head?.all (fun c => !c.isDigit) = true →
        toNumber s = (natOfDigits r : Int)) ∧
    (∀ s : String, s.data.all (fun c => !c.isDigit) = true → toNumber s = 0) := by
  constructor
  · intro s a r b hs hr hrd ha hb
    unfold toNumber
    rw [hs, findDigitRun_run a r b hr hrd ha hb]
    exact formValueAsInt_digits r hr hrd
  · intro s h
    unfold toNumber
    rw [findDigitRun_nodigit s.data h]
    decide

/-- Witness for C4 at the spec's example inputs: 450, 0, and 12. -/
theorem C4_witness :
    toNumber "450 bhp" = 450 ∧ toNumber "N/A" = 0 ∧ toNumber "12.5s" = 12 := by
  refine ⟨?_, C4_toNumber_normalization.2 "N/A" (by decide), ?_⟩
  · rw [C4_toNumber_normalization.1 "450 bhp" [] "450".data " bhp".data
      (by decide) (by decide) (by decide) (by decide) (by decide)]
    decide
  · rw [C4_toNumber_normalization.1 "12.5s" [] "12".data ".5s".data
      (by decide) (by decide) (by decide) (by decide) (by decide)]
    decide

/-- C3: after every successful load of a Details document, the numeric
specs block equals the value derived from the string specs block; the
persisted numeric form is discarded by recomputation. -/
theorem C3_load_recomputes_specs (fs : FS) (n : String) (cd : CarDetails)
    (h : CarDetails.Load fs n = .ok cd) :
    cd.Specs = cd.SpecsFull.Numeric := by
  unfold CarDetails.Load at h
  split at h
  · exact absurd h (by simp)
  · split at h
    · exact absurd h (by simp)
    · exact absurd h (by simp)
    · simp only [Except.ok.injEq] at h
      subst h
      rfl

/-- Witness for C3: the fixture metadata persists a stale numeric block
(999 everywhere) yet loads with the recomputed one. -/
theorem C3_witness :
    ((CarDetails.Load fs0 "a_one").toOption.getD CarDetails.empty).Specs
      = ((CarDetails.Load fs0 "a_one").toOption.getD CarDetails.empty).SpecsFull.Numeric :=
  C3_load_recomputes_specs fs0 "a_one" _ (by decide)

/-- C7: the offset passed to the index query is `page * 50`, and the
number of pages reported equals the ceiling of `totalHits / 50`
(written as the equivalent integer formula `(total + 49) / 50`); in
particular 125 hits give 3 pages. -/
theorem C7_pagination :
    (∀ page : Nat, listSearchOffset page = page * 50) ∧
    (∀ total : Nat, numPages total = (total + 50 - 1) / 50) ∧
    numPages 125 = 3 := by
  have hmid : ∀ total : Nat, numPages total = (total + 50 - 1) / 50 := by
    intro t
    have h50 : ((searchPageSize : ℚ)) = 50 := by norm_num [searchPageSize]
    unfold numPages
    rw [h50]
    have ha1 : t ≤ 50 * ((t + 50 - 1) / 50) := by omega
    have ha2 : 50 * ((t + 50 - 1) / 50) < t + 50 := by omega
    generalize hq : (t + 50 - 1) / 50 = q at ha1 ha2 ⊢
    have hceil : Int.ceil ((t : ℚ) / 50) = (q : Int) := by
      rw [Int.ceil_eq_iff]
      constructor
      · rw [lt_div_iff₀ (by norm_num : (0:ℚ) < 50)]
        have h2 : ((50 * q : Nat) : ℚ) < ((t + 50 : Nat) : ℚ) := by exact_mod_cast ha2
        push_cast at h2 ⊢
        linarith
      · rw [div_le_iff₀ (by norm_num : (0:ℚ) < 50)]
        have h1 : ((t : Nat) : ℚ) ≤ ((50 * q : Nat) : ℚ) := by exact_mod_cast ha1
        push_cast at h1 ⊢
        linarith
    rw [hceil]
    simp
  exact ⟨fun _ => rfl, hmid, (hmid 125).trans (by decide)⟩

/-- A successfully resolved car directory is an entry of the listing. -/
theorem findCarDirIn_mem (l : List CarsEntry) (n : String) (d : CarDir)
    (h : findCarDirIn l n = some d) : CarsEntry.dir n d ∈ l := by
  induction l with
  | nil => simp [findCarDirIn] at h
  | cons e rest ih =>
    cases e with
    | file m =>
      simp only [findCarDirIn] at h
      exact List.mem_cons_of_mem _ (ih h)
    | dir m d0 =>
      simp only [findCarDirIn] at h
      by_cases hm : m = n
      · rw [if_pos hm] at h
        subst hm
        obtain rfl : d0 = d := by simpa using h
        exact List.mem_cons_self _ _
      · rw [if_neg hm] at h
        exact List.mem_cons_of_mem _ (ih h)

/-- The skins read only ever fails with `notExist`. -/
theorem readSkinsDir_error (fs : FS) (n : String) (e : GoError)
    (h : readSkinsDir fs n = .error e) : e = GoError.notExist := by
  unfold readSkinsDir at h
  split at h
  · exact (Except.error.inj h).symm
  · split at h
    · exact (Except.error.inj h).symm
    · simp at h

/-- A non-`notExist` load failure pinpoints a malformed metadata file. -/
theorem load_error_other (fs : FS) (n : String)
    (h : CarDetails.Load fs n = .error GoError.other) :
    ∃ d, fs.findCarDir n = some d ∧ d.uiCar = some UiCarFile.malformed := by
  unfold CarDetails.Load at h
  split at h
  · simp at h
  · rename_i d heq
    split at h
    · simp at h
    · rename_i h2
      exact ⟨d, heq, h2⟩
    · simp at h

/-- In a well-formed filesystem, `LoadCar` never fails with `other`. -/
theorem loadCar_not_other (fs : FS) (hnm : NoMalformed fs = true) (n : String) (t : Tyres) :
    CarManager.LoadCar fs n t ≠ Except.error GoError.other := by
  intro h
  unfold CarManager.LoadCar at h
  cases hrs : readSkinsDir fs n with
  | error e =>
    rw [hrs] at h
    have he := readSkinsDir_error fs n e hrs
    subst he
    simp at h
  | ok skinFiles =>
    rw [hrs] at h
    cases hld : CarDetails.Load fs n with
    | error e =>
      cases e with
      | notExist => rw [hld] at h; simp at h
      | other =>
        obtain ⟨d, hfd, hui⟩ := load_error_other fs n hld
        have hmem := findCarDirIn_mem fs.cars n d hfd
        unfold NoMalformed at hnm
        rw [List.all_eq_true] at hnm
        have hw := hnm _ hmem
        simp [CarsEntry.wellFormed, hui] at hw
    | ok cd => rw [hld] at h; simp at h

/-- `LoadCar` returns a car carrying the requested name. -/
theorem loadCar_name (fs : FS) (n : String) (t : Tyres) (car : Car)
    (h : CarManager.LoadCar fs n t = .ok car) : car.Name = n := by
  unfold CarManager.LoadCar at h
  split at h
  · simp at h
  · split at h
    · simp only [Except.ok.injEq] at h
      subst h
      rfl
    · simp at h
    · simp only [Except.ok.injEq] at h
      subst h
      rfl

/-- With no skins subdirectory, `LoadCar` fails with `notExist`. -/
theorem loadCar_skinless (fs : FS) (n : String) (d : CarDir) (t : Tyres)
    (hfd : fs.findCarDir n = some d) (hsk : d.skins = none) :
    CarManager.LoadCar fs n t = .error GoError.notExist := by
  have h1 : readSkinsDir fs n = .error GoError.notExist := by
    simp [readSkinsDir, hfd, hsk]
  unfold CarManager.LoadCar
  rw [h1]

/-- C6: for an identity whose directory and skins subdirectory exist but
whose metadata file is absent, `LoadCar` succeeds and the resulting
Details carry only the prettified display name, every other field being
the Go zero value. -/
theorem C6_absent_metadata_defaults (fs : FS) (n : String)
    (entries : List (String × Bool)) (d : CarDir) (tyres : Tyres)
    (hfd : fs.findCarDir n = some d) (hsk : d.skins = some entries)
    (hui : d.uiCar = none) :
    CarManager.LoadCar fs n tyres =
      .ok { Name := n, Skins := (entries.filter (fun p => p.2)).map Prod.fst,
            Tyres := tyresLookup tyres n,
            Details := { CarDetails.empty with Name := prettifyName n true } } := by
  have h1 : readSkinsDir fs n = .ok entries := by
    simp [readSkinsDir, hfd, hsk]
  have h2 : CarDetails.Load fs n = .error GoError.notExist := by
    simp [CarDetails.Load, hfd, hui]
  unfold CarManager.LoadCar
  rw [h1, h2]

/-- Witness for C6 on the fixture car `b_two`, which has a skin but no
metadata file. -/
theorem C6_witness :
    CarManager.LoadCar fs0 "b_two" [] =
      .ok { Name := "b_two",
            Skins := (([("blue", true)] : List (String × Bool)).filter (fun p => p.2)).map
              Prod.fst,
            Tyres := tyresLookup [] "b_two",
            Details := { CarDetails.empty with Name := prettifyName "b_two" true } } :=
  C6_absent_metadata_defaults fs0 "b_two" [("blue", true)] dirB []
    (by decide) (by decide) (by decide)

/-- C8: if any hit id of a search can no longer be loaded from the
filesystem, the whole search errors and yields no car map at all. -/
theorem C8_stale_hit_aborts_search (fs : FS) (hits : List String) (id : String)
    (hmem : id ∈ hits) (hfail : (CarManager.LoadCar fs id []).toOption = none) :
    (CarManager.Search fs hits).toOption = none := by
  induction hits with
  | nil => cases hmem
  | cons hid rest ih =>
    rcases List.mem_cons.mp hmem with rfl | hmem2
    · unfold CarManager.Search
      cases hl : CarManager.LoadCar fs id [] with
      | error e => rfl
      | ok car => rw [hl] at hfail; simp [Except.toOption] at hfail
    · unfold CarManager.Search
      cases hl : CarManager.LoadCar fs hid [] with
      | error e => rfl
      | ok car =>
        have hr := ih hmem2
        cases hs : CarManager.Search fs rest with
        | error e => rfl
        | ok l => rw [hs] at hr; simp [Except.toOption] at hr

/-- Witness for C8: the fixture index contains the ghost id whose
directory is gone; searching hits including it yields no map. -/
theorem C8_witness :
    (CarManager.Search fs0 ["ghost_car", "a_one"]).toOption = none :=
  C8_stale_hit_aborts_search fs0 ["ghost_car", "a_one"] "ghost_car"
    (by decide) (by decide)

/-- In a well-formed filesystem, the enumeration loop never aborts. -/
theorem listCarsLoop_ok (fs : FS) (hnm : NoMalformed fs = true) :
    ∀ entries : List CarsEntry, ∃ cars, listCarsLoop fs entries = .ok cars := by
  intro entries
  induction entries with
  | nil => exact ⟨[], rfl⟩
  | cons e rest ih =>
    obtain ⟨cars, hc⟩ := ih
    cases e with
    | file m => exact ⟨cars, by simpa [listCarsLoop] using hc⟩
    | dir m d =>
      cases hl : CarManager.LoadCar fs m fs.tyres with
      | error err =>
        cases err with
        | notExist => exact ⟨cars, by simp [listCarsLoop, hl, hc]⟩
        | other => exact absurd hl (loadCar_not_other fs hnm m fs.tyres)
      | ok car => exact ⟨car :: cars, by simp [listCarsLoop, hl, hc, Except.map]⟩

/-- Every car produced by the enumeration loop is reloadable under its
own name. -/
theorem listCarsLoop_mem (fs : FS) :
    ∀ (entries : List CarsEntry) (cars : List Car), listCarsLoop fs entries = .ok cars →
      ∀ c ∈ cars, CarManager.LoadCar fs c.Name fs.tyres = .ok c := by
  intro entries
  induction entries with
  | nil =>
    intro cars h c hc
    obtain rfl : cars = [] := by simpa [listCarsLoop] using h.symm
    cases hc
  | cons e rest ih =>
    intro cars h c hc
    cases e with
    | file m => exact ih cars (by simpa [listCarsLoop] using h) c hc
    | dir m d =>
      cases hl : CarManager.LoadCar fs m fs.tyres with
      | error err =>
        cases err with
        | notExist =>
          simp only [listCarsLoop, hl] at h
          exact ih cars h c hc
        | other => simp [listCarsLoop, hl] at h
      | ok car =>
        simp only [listCarsLoop, hl] at h
        cases hr : listCarsLoop fs rest with
        | error e2 => rw [hr] at h; simp [Except.map] at h
        | ok cars0 =>
          rw [hr] at h
          simp only [Except.map, Except.ok.injEq] at h
          subst h
          cases hc with
          | head =>
            rw [loadCar_name fs m fs.tyres _ hl]
            exact hl
          | tail _ hmem => exact ih cars0 hr c hmem

/-- Every listed car is reloadable under its own name. -/
theorem listCars_mem (fs : FS) (cars : List Car) (h : CarManager.ListCars fs = .ok cars) :
    ∀ c ∈ cars, CarManager.LoadCar fs c.Name fs.tyres = .ok c := by
  intro c hc
  unfold CarManager.ListCars at h
  cases hr : listCarsLoop fs fs.cars with
  | error e => rw [hr] at h; simp [Except.map] at h
  | ok cars0 =>
    rw [hr] at h
    simp only [Except.map, Except.ok.injEq] at h
    subst h
    exact listCarsLoop_mem fs fs.cars cars0 hr c ((List.mem_insertionSort carOrder).mp hc)

/-- A successful listing is pairwise sorted by prettified name. -/
theorem listCars_sorted (fs : FS) (cars : List Car)
    (h : CarManager.ListCars fs = .ok cars) : cars.Pairwise carOrder := by
  unfold CarManager.ListCars at h
  cases hr : listCarsLoop fs fs.cars with
  | error e => rw [hr] at h; simp [Except.map] at h
  | ok cars0 =>
    rw [hr] at h
    simp only [Except.map, Except.ok.injEq] at h
    subst h
    haveI : IsTotal Car carOrder := ⟨carOrder_total⟩
    haveI : IsTrans Car carOrder := ⟨fun _ _ _ => carOrder_trans _ _ _⟩
    exact List.sorted_insertionSort carOrder cars0

/-- A skinless identity never appears in a successful listing. -/
theorem listCars_skips_skinless (fs : FS) (cars : List Car) (n : String) (d : CarDir)
    (h : CarManager.ListCars fs = .ok cars) (hfd : fs.findCarDir n = some d)
    (hsk : d.skins = none) : ∀ c ∈ cars, c.Name ≠ n := by
  intro c hc he
  have hl := listCars_mem fs cars h c hc
  rw [he, loadCar_skinless fs n d fs.tyres hfd hsk] at hl
  simp at hl

/-- A well-formed filesystem always lists successfully. -/
theorem listCars_ok (fs : FS) (hnm : NoMalformed fs = true) :
    ∃ cars, CarManager.ListCars fs = .ok cars := by
  obtain ⟨cars0, h⟩ := listCarsLoop_ok fs hnm fs.cars
  exact ⟨List.insertionSort carOrder cars0, by simp [CarManager.ListCars, h, Except.map]⟩

/-- C5: `ListCars` succeeds on any catalog whose metadata files decode
(skinless identities do not fail the listing), returns the items sorted
ascending by prettified display name under case-sensitive lexical
order, and silently omits every identity whose skins subdirectory is
absent. -/
theorem C5_listing_sorted_and_skips :
    (∀ fs : FS, NoMalformed fs = true → (CarManager.ListCars fs).toOption.isSome = true) ∧
    (∀ (fs : FS) (cars : List Car), CarManager.ListCars fs = .ok cars →
        cars.Pairwise carOrder) ∧
    (∀ (fs : FS) (cars : List Car) (n : String) (d : CarDir),
        CarManager.ListCars fs = .ok cars → fs.findCarDir n = some d → d.skins = none →
        ∀ c ∈ cars, c.Name ≠ n) := by
  refine ⟨?_, listCars_sorted, fun fs cars n d h hfd hsk =>
    listCars_skips_skinless fs cars n d h hfd hsk⟩
  intro fs hnm
  obtain ⟨cars, h⟩ := listCars_ok fs hnm
  rw [h]
  rfl

/-- Witness for C5 on the fixture filesystem: the listing succeeds, is
sorted, and omits the skinless identity `c_three`. -/
theorem C5_witness :
    NoMalformed fs0 = true ∧
    (CarManager.ListCars fs0).toOption.isSome = true ∧
    cars0.Pairwise carOrder ∧
    (∀ c ∈ cars0, c.Name ≠ "c_three") :=
  ⟨by decide,
   C5_listing_sorted_and_skips.1 fs0 (by decide),
   C5_listing_sorted_and_skips.2.1 fs0 cars0 (by decide),
   C5_listing_sorted_and_skips.2.2 fs0 cars0 "c_three" dirC
     (by decide) (by decide) (by decide)⟩

/-- An index put is immediately visible under the put identity. -/
theorem indexLookup_put (idx : CarIndex) (n : String) (d : CarDetails) :
    indexLookup (indexPut idx n d) n = some d := by
  unfold indexLookup indexPut
  rw [List.find?_cons_of_pos]
  · rfl
  · simp

/-- After an index delete, the identity resolves to nothing. -/
theorem indexLookup_delete (idx : CarIndex) (n : String) :
    indexLookup (indexDelete idx n) n = none := by
  unfold indexLookup indexDelete
  rw [List.find?_eq_none.mpr]
  · rfl
  · intro p hp
    have hmem := List.of_mem_filter hp
    simp at hmem ⊢
    exact hmem

/-- Updating a named car directory commutes with resolving that name. -/
theorem findCarDirIn_updateCarDir (l : List CarsEntry) (n : String) (f : CarDir → CarDir) :
    findCarDirIn (updateCarDir l n f) n = (findCarDirIn l n).map f := by
  induction l with
  | nil => rfl
  | cons e rest ih =>
    cases e with
    | file m => simpa [updateCarDir, findCarDirIn] using ih
    | dir m d =>
      by_cases hm : m = n
      · simp [updateCarDir, findCarDirIn, hm]
      · simp [updateCarDir, findCarDirIn, hm, ih]

/-- Resolution skips over a prefix that does not hold the name. -/
theorem findCarDirIn_append_none (l1 l2 : List CarsEntry) (n : String)
    (h : findCarDirIn l1 n = none) :
    findCarDirIn (l1 ++ l2) n = findCarDirIn l2 n := by
  induction l1 with
  | nil => rfl
  | cons e rest ih =>
    cases e with
    | file m =>
      simp only [findCarDirIn] at h
      simpa [findCarDirIn] using ih h
    | dir m d =>
      simp only [findCarDirIn] at h
      by_cases hm : m = n
      · rw [if_pos hm] at h
        exact absurd h (by simp)
      · rw [if_neg hm] at h
        simpa [findCarDirIn, hm] using ih h

/-- Saving Details installs the metadata file in the resolved (or
freshly created) car directory. -/
theorem findCarDir_save (fs : FS) (n : String) (d : CarDetails) :
    (fs.saveDetails n d).findCarDir n =
      some (match fs.findCarDir n with
            | some d0 => { d0 with uiCar := some (.ok d) }
            | none => { skins := none, uiCar := some (.ok d) }) := by
  unfold FS.saveDetails
  by_cases hs : (fs.findCarDir n).isSome
  · rw [if_pos hs]
    obtain ⟨d0, hd0⟩ := Option.isSome_iff_exists.mp hs
    show findCarDirIn
        (updateCarDir fs.cars n fun cd => { cd with uiCar := some (.ok d) }) n = _
    rw [findCarDirIn_updateCarDir]
    rw [show findCarDirIn fs.cars n = some d0 from hd0]
    rw [hd0]
    rfl
  · rw [if_neg hs]
    have hnone : fs.findCarDir n = none := Option.not_isSome_iff_eq_none.mp hs
    show findCarDirIn
        (fs.cars ++ [CarsEntry.dir n { skins := none, uiCar := some (.ok d) }]) n = _
    rw [findCarDirIn_append_none _ _ _ hnone]
    rw [hnone]
    simp [findCarDirIn]

/-- After saving, the stored decoded Details are exactly the saved ones. -/
theorem uiCarOkDetails_save (fs : FS) (n : String) (d : CarDetails) :
    FS.uiCarOkDetails (fs.saveDetails n d) n = some d := by
  unfold FS.uiCarOkDetails
  rw [findCarDir_save]
  cases fs.findCarDir n <;> rfl

/-- `AddTag` only ever touches the Tags field. -/
theorem CarDetails.AddTag_frame (cd : CarDetails) (t : String) :
    cd.AddTag t = { cd with Tags := (cd.AddTag t).Tags } := by
  unfold CarDetails.AddTag
  split <;> rfl

/-- `DelTag` only ever touches the Tags field. -/
theorem CarDetails.DelTag_frame (cd : CarDetails) (t : String) :
    cd.DelTag t = { cd with Tags := (cd.DelTag t).Tags } := by
  unfold CarDetails.DelTag
  split <;> rfl

/-- Successful `AddTag` decomposed: the loaded car, the filesystem
write, and the index put it performs. -/
theorem addTag_ok (st : CarManagerState) (n t : String) (st' : CarManagerState)
    (h : CarManager.AddTag st n t = .ok st') :
    ∃ car, CarManager.LoadCar st.fs n [] = .ok car ∧
      st'.fs = st.fs.saveDetails n (car.Details.AddTag t) ∧
      st'.carIndex = indexPut st.carIndex car.Name (car.Details.AddTag t) := by
  unfold CarManager.AddTag at h
  cases hl : CarManager.LoadCar st.fs n [] with
  | error e => rw [hl] at h; simp at h
  | ok car =>
    rw [hl] at h
    simp only [Except.ok.injEq] at h
    subst h
    exact ⟨car, rfl, rfl, rfl⟩

/-- Successful `DelTag` decomposed. -/
theorem delTag_ok (st : CarManagerState) (n t : String) (st' : CarManagerState)
    (h : CarManager.DelTag st n t = .ok st') :
    ∃ car, CarManager.LoadCar st.fs n [] = .ok car ∧
      st'.fs = st.fs.saveDetails n (car.Details.DelTag t) ∧
      st'.carIndex = indexPut st.carIndex car.Name (car.Details.DelTag t) := by
  unfold CarManager.DelTag at h
  cases hl : CarManager.LoadCar st.fs n [] with
  | error e => rw [hl] at h; simp at h
  | ok car =>
    rw [hl] at h
    simp only [Except.ok.injEq] at h
    subst h
    exact ⟨car, rfl, rfl, rfl⟩

/-- `SaveCarDetails` puts the car in the index under its own name. -/
theorem saveCarDetails_index (st : CarManagerState) (n : String) (car : Car) :
    (CarManager.SaveCarDetails st n car).carIndex =
      indexPut st.carIndex car.Name car.Details := rfl

/-- `SaveCarDetails` writes the Details under the argument name. -/
theorem saveCarDetails_fs (st : CarManagerState) (n : String) (car : Car) :
    (CarManager.SaveCarDetails st n car).fs = st.fs.saveDetails n car.Details := rfl

/-- C1 (amended): `SaveCarDetails`, `AddTag` and `DelTag` perform, on
success, a search-index put of the identity's Details within the same
call (the indexed document equals the Details just written to disk);
`UpdateCarMetadata`, however, saves via `CarDetails.Save` directly and
performs no index put — the index is left unchanged. -/
theorem C1_mutations_index_put :
    (∀ (st : CarManagerState) (n : String) (car : Car), car.Name = n →
        indexLookup (CarManager.SaveCarDetails st n car).carIndex n = some car.Details ∧
        FS.uiCarOkDetails (CarManager.SaveCarDetails st n car).fs n = some car.Details) ∧
    (∀ (st : CarManagerState) (n t : String) (st' : CarManagerState),
        CarManager.AddTag st n t = .ok st' →
        indexLookup st'.carIndex n = FS.uiCarOkDetails st'.fs n ∧
        (FS.uiCarOkDetails st'.fs n).isSome = true) ∧
    (∀ (st : CarManagerState) (n t : String) (st' : CarManagerState),
        CarManager.DelTag st n t = .ok st' →
        indexLookup st'.carIndex n = FS.uiCarOkDetails st'.fs n ∧
        (FS.uiCarOkDetails st'.fs n).isSome = true) ∧
    (∀ (st : CarManagerState) (n no dl : String) (st' : CarManagerState),
        CarManager.UpdateCarMetadata st n no dl = .ok st' →
        st'.carIndex = st.carIndex) := by
  refine ⟨?_, ?_, ?_, ?_⟩
  · intro st n car hname
    rw [saveCarDetails_index, saveCarDetails_fs, hname, indexLookup_put,
        uiCarOkDetails_save]
    exact ⟨rfl, rfl⟩
  · intro st n t st' h
    obtain ⟨car, hl, hfs, hidx⟩ := addTag_ok st n t st' h
    have hname := loadCar_name st.fs n [] car hl
    rw [hidx, hfs, hname, indexLookup_put, uiCarOkDetails_save]
    exact ⟨rfl, rfl⟩
  · intro st n t st' h
    obtain ⟨car, hl, hfs, hidx⟩ := delTag_ok st n t st' h
    have hname := loadCar_name st.fs n [] car hl
    rw [hidx, hfs, hname, indexLookup_put, uiCarOkDetails_save]
    exact ⟨rfl, rfl⟩
  · intro st n no dl st' h
    unfold CarManager.UpdateCarMetadata at h
    cases hl : CarManager.LoadCar st.fs n [] with
    | error e => rw [hl] at h; simp at h
    | ok car =>
      rw [hl] at h
      simp only [Except.ok.injEq] at h
      subst h
      rfl

/-- Witness for the amended C1 on the fixtures. -/
theorem C1_witness :
    (indexLookup stAdd.carIndex "a_one" = FS.uiCarOkDetails stAdd.fs "a_one" ∧
      (FS.uiCarOkDetails stAdd.fs "a_one").isSome = true) ∧
    (indexLookup stDel.carIndex "a_one" = FS.uiCarOkDetails stDel.fs "a_one" ∧
      (FS.uiCarOkDetails stDel.fs "a_one").isSome = true) ∧
    stUpd.carIndex = st0.carIndex :=
  ⟨C1_mutations_index_put.2.1 st0 "a_one" "newtag" stAdd (by decide),
   C1_mutations_index_put.2.2.1 st0 "a_one" "gt" stDel (by decide),
   C1_mutations_index_put.2.2.2 st0 "a_one" "fresh notes" "http:dl" stUpd (by decide)⟩

/-- Counterexample to C1 as stated: on the fixture with an empty index,
`UpdateCarMetadata` succeeds and its filesystem write lands (the new
notes are persisted in the Details on disk), yet no index put is
performed for the identity — the index is still empty on return. -/
theorem C1_counterexample :
    ((CarManager.UpdateCarMetadata stC1 "a_one" "my notes" "my url").map
        (fun st => ((FS.uiCarOkDetails st.fs "a_one").map CarDetails.Notes,
                    st.carIndex))).toOption
      = some (some "my notes", ([] : CarIndex)) := by decide

/-- Every delete that fails before `ListCars` aside, a successful
`DeleteCar` ends with the no-match branch keeping the filesystem
untouched when absent, and always removes the index entry. -/
theorem deleteCar_no_match (st : CarManagerState) (n : String) (cars : List Car)
    (hl : CarManager.ListCars st.fs = .ok cars) (hno : ∀ c ∈ cars, c.Name ≠ n) :
    CarManager.DeleteCar st n =
      .ok { fs := st.fs, carIndex := indexDelete st.carIndex n } := by
  unfold CarManager.DeleteCar
  rw [hl]
  have hany : (cars.any fun car => car.Name = n) = false := by
    rw [List.any_eq_false]
    intro c hc
    simpa using hno c hc
  simp [hany, CarManager.DeIndexCar]

/-- C2: every successful `DeleteCar` removes the identity's index entry,
and when the identity is absent from the prior listing the filesystem
is left untouched, that absence is not an error, and the index entry is
still removed. -/
theorem C2_delete_always_deindexes :
    (∀ (st : CarManagerState) (n : String) (st' : CarManagerState),
        CarManager.DeleteCar st n = .ok st' →
        st'.carIndex = indexDelete st.carIndex n ∧
        indexLookup st'.carIndex n = none) ∧
    (∀ (st : CarManagerState) (n : String) (cars : List Car),
        CarManager.ListCars st.fs = .ok cars → (∀ c ∈ cars, c.Name ≠ n) →
        CarManager.DeleteCar st n =
          .ok { fs := st.fs, carIndex := indexDelete st.carIndex n }) := by
  constructor
  · intro st n st' h
    unfold CarManager.DeleteCar at h
    cases hl : CarManager.ListCars st.fs with
    | error e => rw [hl] at h; simp at h
    | ok cars =>
      rw [hl] at h
      simp only [Except.ok.injEq] at h
      subst h
      exact ⟨rfl, indexLookup_delete st.carIndex n⟩
  · exact deleteCar_no_match

/-- Witness for C2: deleting the never-present identity `zeta` leaves
the fixture filesystem untouched, succeeds, and removes the (absent)
index entry. -/
theorem C2_witness :
    CarManager.DeleteCar st0 "zeta" =
      .ok { fs := st0.fs, carIndex := indexDelete st0.carIndex "zeta" } ∧
    indexLookup (indexDelete st0.carIndex "zeta") "zeta" = none :=
  ⟨C2_delete_always_deindexes.2 st0 "zeta" cars0 (by decide) (by decide),
   (C2_delete_always_deindexes.1 st0 "zeta"
      { fs := st0.fs, carIndex := indexDelete st0.carIndex "zeta" } (by decide)).2⟩

/-- C9: `AddTag` and `DelTag` write back Details equal to the loaded
ones in every field except Tags. -/
theorem C9_tag_ops_frame (st : CarManagerState) (n t : String) (car : Car)
    (hload : CarManager.LoadCar st.fs n [] = .ok car) :
    (∀ st', CarManager.AddTag st n t = .ok st' →
        FS.uiCarOkDetails st'.fs n =
          some { car.Details with Tags := (car.Details.AddTag t).Tags }) ∧
    (∀ st', CarManager.DelTag st n t = .ok st' →
        FS.uiCarOkDetails st'.fs n =
          some { car.Details with Tags := (car.Details.DelTag t).Tags }) := by
  constructor
  · intro st' h
    obtain ⟨car2, hl2, hfs, _⟩ := addTag_ok st n t st' h
    rw [hload] at hl2
    obtain rfl : car2 = car := by simpa using hl2.symm
    rw [hfs, uiCarOkDetails_save, ← CarDetails.AddTag_frame]
  · intro st' h
    obtain ⟨car2, hl2, hfs, _⟩ := delTag_ok st n t st' h
    rw [hload] at hl2
    obtain rfl : car2 = car := by simpa using hl2.symm
    rw [hfs, uiCarOkDetails_save, ← CarDetails.DelTag_frame]

/-- Witness for C9 on the fixture car: the stored document after each
tag operation is the loaded one with only Tags changed. -/
theorem C9_witness :
    FS.uiCarOkDetails stAdd.fs "a_one" =
      some { carA.Details with Tags := (carA.Details.AddTag "newtag").Tags } ∧
    FS.uiCarOkDetails stDel.fs "a_one" =
      some { carA.Details with Tags := (carA.Details.DelTag "gt").Tags } :=
  ⟨(C9_tag_ops_frame st0 "a_one" "newtag" carA (by decide)).1 stAdd (by decide),
   (C9_tag_ops_frame st0 "a_one" "gt" carA (by decide)).2 stDel (by decide)⟩

/-- C10: for an identity whose directory exists but has no skins
subdirectory, `DeleteCar` leaves the whole filesystem untouched (the
listing skips the identity, so the removal branch is never reached),
still removes the identity's index entry, and returns without error. -/
theorem C10_skinless_dir_survives_delete (st : CarManagerState) (n : String) (d : CarDir)
    (hnm : NoMalformed st.fs = true) (hfd : st.fs.findCarDir n = some d)
    (hsk : d.skins = none) :
    CarManager.DeleteCar st n =
      .ok { fs := st.fs, carIndex := indexDelete st.carIndex n } ∧
    indexLookup (indexDelete st.carIndex n) n = none := by
  obtain ⟨cars, hl⟩ := listCars_ok st.fs hnm
  exact ⟨deleteCar_no_match st n cars hl
      (listCars_skips_skinless st.fs cars n d hl hfd hsk),
    indexLookup_delete st.carIndex n⟩

/-- Witness for C10 on the fixture: `c_three` exists on disk but has no
skins subdirectory; deleting it leaves the filesystem as is and clears
the index entry. -/
theorem C10_witness :
    CarManager.DeleteCar st0 "c_three" =
      .ok { fs := st0.fs, carIndex := indexDelete st0.carIndex "c_three" } ∧
    indexLookup (indexDelete st0.carIndex "c_three") "c_three" = none :=
  C10_skinless_dir_survives_delete st0 "c_three" dirC (by decide) (by decide) (by decide)
